import Mathlib

/-!
Shallow embedding of the `MessageToken` Solidity contract found in
`src/src/modules/LoadingScreen.js` (lines 190-395 of that file hold the
contract source).  Machine integers (`uint`/`uint256`) are modelled as `Nat`
with explicit reduction modulo `2 ^ 256` exactly where the EVM wraps;
`require`-guarded operations return `Except`, mirroring an EVM revert that
discards all effects of the call.
-/

namespace MessageToken

/-- The `uint256` modulus: all EVM arithmetic in the contract wraps mod `2 ^ 256`. -/
def M : Nat := 2 ^ 256

/-- Account identifiers (`address`) are opaque; we model them as naturals. -/
abbrev Addr := Nat

/-- Wrapping `uint256` addition, as performed by the raw `+=` in `claim` and
`sendMessage`. -/
def uadd (a b : Nat) : Nat := (a + b) % M

/-- Wrapping `uint256` subtraction, as performed by the raw `-` / `-=` in
`claim`, `sendMessage`, `getBlocksTillClaimable` and `getClaimableTokens`.
Correct two's-complement behaviour for any `Nat` inputs. -/
def usub (a b : Nat) : Nat := (M + a % M - b % M) % M

/-- Modelled from the spec: `SafeMath.div` comes from the imported
`SafeMath.sol`, which is not part of the source tree.  The spec describes
`getClaimableTokens` as `floor((currentHeight - lastClaimedHeight - 1) /
blocksPerClaim) * dailyTokens` and states that `blocksPerClaim = 0` makes
every account immediately and repeatedly claimable, so division by zero must
yield 0 (no failure); `Nat` division has exactly this behaviour. -/
def safeDiv (a b : Nat) : Nat := a / b

/-- Modelled from the spec: `SafeMath.sub` comes from the imported
`SafeMath.sol`, which is not part of the source tree.  Per the spec's
"math-safety mixin" role it is exact subtraction; its only call site
(`getBlocksTillClaimable`) guards `blockDiff < blocksPerClaim`, so plain
truncated `Nat` subtraction coincides with it there. -/
def safeSub (a b : Nat) : Nat := a - b

/-- Failure reasons of reverting (`require`-guarded) operations, per the
spec's error taxonomy. -/
inductive Err where
  | InsufficientFunds
  | Unauthorized
deriving DecidableEq, Repr

/-- The contract storage.  `balances` and `totalSupply` are declared in the
inherited `BaseToken` (modelled from the spec: `BaseToken.sol` is not in the
source tree; the spec's AccountLedger declares a per-account unsigned
`balance` and a fixed `totalSupply`, with the reserve being the contract's
own balance `balances thisAddr`).  `thisAddr` is the contract's own address
(`this` in Solidity), fixed at deployment.  All remaining fields are declared
in the `MessageToken` source itself. -/
structure State where
  thisAddr : Addr
  owner : Addr
  totalSupply : Nat
  balances : Addr → Nat
  name : String
  decimals : Nat
  symbol : String
  version : String
  dailyTokens : Nat
  tokensPerMessage : Nat
  lastClaimed : Addr → Nat
  messageHistory : Addr → List Nat
  blocksPerClaim : Nat
  ipfsHash : String
  latestMessage : String

/-- Contract storage immediately after deployment: Solidity zero-initialises
every slot except the fields with explicit initialisers
(`dailyTokens = 12`, `tokensPerMessage = 3`, `blocksPerClaim = 100`,
`version = "MSG"`). -/
def deployed (thisAddr : Addr) : State where
  thisAddr := thisAddr
  owner := 0
  totalSupply := 0
  balances := fun _ => 0
  name := ""
  decimals := 0
  symbol := ""
  version := "MSG"
  dailyTokens := 12
  tokensPerMessage := 3
  lastClaimed := fun _ => 0
  messageHistory := fun _ => []
  blocksPerClaim := 100
  ipfsHash := ""
  latestMessage := ""

/-- Source `function UsableToken(uint256 _initialAmount, string _tokenName,
uint8 _decimalUnits, string _tokenSymbol) public`.  Note: in Solidity 0.4.8 a
constructor must bear the contract's name (`MessageToken`); `UsableToken`
does not, so it is an ordinary public function callable by anyone at any
time.  It sets `owner = msg.sender`, `balances[this] = _initialAmount`,
`totalSupply = _initialAmount` and the token metadata. -/
def UsableToken (s : State) (caller : Addr) (initialAmount : Nat)
    (tokenName : String) (decimalUnits : Nat) (tokenSymbol : String) : State :=
  { s with
    owner := caller
    balances := Function.update s.balances s.thisAddr (initialAmount % M)
    totalSupply := initialAmount % M
    name := tokenName
    decimals := decimalUnits
    symbol := tokenSymbol }

/-- Source `function changeBlocksPerClaim(uint newBPC) public`:
`require(msg.sender == owner)` then `blocksPerClaim = newBPC`. -/
def changeBlocksPerClaim (s : State) (caller : Addr) (newBPC : Nat) :
    Except Err State :=
  if caller = s.owner then
    Except.ok { s with blocksPerClaim := newBPC % M }
  else
    Except.error Err.Unauthorized

/-- Source `function getBlocksTillClaimable(address addr) public view`:
returns 0 for a never-claimed account; otherwise computes
`blockDiff = block.number - lastClaimed[addr] - 1` (raw wrapping uint
arithmetic) and returns `blocksPerClaim.sub(blockDiff)` when
`blockDiff < blocksPerClaim`, else 0. -/
def getBlocksTillClaimable (s : State) (blockNumber : Nat) (addr : Addr) : Nat :=
  if s.lastClaimed addr = 0 then 0
  else
    let blockDiff := usub (usub blockNumber (s.lastClaimed addr)) 1
    if blockDiff < s.blocksPerClaim then safeSub s.blocksPerClaim blockDiff
    else 0

/-- Source `function getLastClaimedBlock(address addr) public view`. -/
def getLastClaimedBlock (s : State) (addr : Addr) : Nat :=
  s.lastClaimed addr

/-- Source `function getMessageHistory(address addr) public view`. -/
def getMessageHistory (s : State) (addr : Addr) : List Nat :=
  s.messageHistory addr

/-- Source `function getBlocksPerClaim() public view`. -/
def getBlocksPerClaim (s : State) : Nat := s.blocksPerClaim

/-- Source `function getTokensPerMessage() public view`. -/
def getTokensPerMessage (s : State) : Nat := s.tokensPerMessage

/-- Source `function getDailyTokensNo() public view`. -/
def getDailyTokensNo (s : State) : Nat := s.dailyTokens

/-- Modelled from the spec: `balanceOf` is declared in the missing
`BaseToken.sol`; the spec specifies `balanceOf(account) -> balance`,
read-only and never failing. -/
def balanceOf (s : State) (addr : Addr) : Nat := s.balances addr

/-- Source `function getClaimableTokens(address addr) public view`:
`dailyTokens` if never claimed, else
`(block.number - lastClaimed[addr] - 1).div(blocksPerClaim) * dailyTokens`
(the division through SafeMath, the product raw wrapping uint arithmetic). -/
def getClaimableTokens (s : State) (blockNumber : Nat) (addr : Addr) : Nat :=
  if s.lastClaimed addr = 0 then s.dailyTokens
  else
    let multiples := safeDiv (usub (usub blockNumber (s.lastClaimed addr)) 1)
      s.blocksPerClaim
    (multiples * s.dailyTokens) % M

/-- Source `function claim() public returns (bool success)`:
returns `false` (no state change) when
`block.number - lastClaimed[msg.sender] - 1 < blocksPerClaim` (raw wrapping
uint arithmetic); otherwise sets `lastClaimed[msg.sender] = block.number - 1`,
then `balances[msg.sender] += value` and `balances[this] -= value` with
`value = getClaimableTokens(msg.sender)`, both raw wrapping updates applied
in that order, and returns `true`.  There is no reserve-sufficiency check. -/
def claim (s : State) (blockNumber : Nat) (caller : Addr) : Bool × State :=
  if usub (usub blockNumber (s.lastClaimed caller)) 1 < s.blocksPerClaim then
    (false, s)
  else
    let value := getClaimableTokens s blockNumber caller
    let b1 := Function.update s.balances caller (uadd (s.balances caller) value)
    let b2 := Function.update b1 s.thisAddr (usub (b1 s.thisAddr) value)
    (true,
      { s with
        lastClaimed := Function.update s.lastClaimed caller (usub blockNumber 1)
        balances := b2 })

/-- Source `function sendMessage(string message) public`:
`require(balances[msg.sender] >= tokensPerMessage)`, then pushes
`block.number - 1` onto `messageHistory[msg.sender]`, moves
`tokensPerMessage` from the caller to the contract (raw wrapping `-=`/`+=`,
caller first), and overwrites `latestMessage`. -/
def sendMessage (s : State) (blockNumber : Nat) (caller : Addr)
    (message : String) : Except Err State :=
  if s.balances caller ≥ s.tokensPerMessage then
    let b1 := Function.update s.balances caller
      (usub (s.balances caller) s.tokensPerMessage)
    let b2 := Function.update b1 s.thisAddr
      (uadd (b1 s.thisAddr) s.tokensPerMessage)
    Except.ok
      { s with
        messageHistory := Function.update s.messageHistory caller
          (s.messageHistory caller ++ [usub blockNumber 1])
        balances := b2
        latestMessage := message }
  else
    Except.error Err.InsufficientFunds

/-- Source `function getMessage() public view`. -/
def getMessage (s : State) : String := s.latestMessage

/-- Source `function sendHash(string _hash) public`: unconditionally overwrites
`ipfsHash`; no fee, no authorization check. -/
def sendHash (s : State) (hash : String) : State :=
  { s with ipfsHash := hash }

/-- Source `function getHash() public view`. -/
def getHash (s : State) : String := s.ipfsHash

/-- One externally submitted state-changing call, with the caller identity
and block height resolved by the execution environment. -/
inductive Op where
  | usableToken (caller : Addr) (initialAmount : Nat) (tokenName : String)
      (decimalUnits : Nat) (tokenSymbol : String)
  | claim (caller : Addr) (blockNumber : Nat)
  | sendMessage (caller : Addr) (blockNumber : Nat) (message : String)
  | sendHash (caller : Addr) (hash : String)
  | changeBlocksPerClaim (caller : Addr) (newBPC : Nat)

/-- The authenticated caller of an operation. -/
def Op.caller : Op → Addr
  | .usableToken c _ _ _ _ => c
  | .claim c _ => c
  | .sendMessage c _ _ => c
  | .sendHash c _ => c
  | .changeBlocksPerClaim c _ => c

/-- Whether the operation is the (misnamed-constructor) creation call. -/
def Op.isCreate : Op → Bool
  | .usableToken _ _ _ _ _ => true
  | _ => false

/-- Applying one operation to the contract storage.  A revert
(`Except.error`) discards every effect of the call, so the storage is
unchanged. -/
def applyOp (s : State) : Op → State
  | .usableToken c i n d sy => UsableToken s c i n d sy
  | .claim c h => (claim s h c).2
  | .sendMessage c h m =>
      match sendMessage s h c m with
      | .ok s' => s'
      | .error _ => s
  | .sendHash _ ha => sendHash s ha
  | .changeBlocksPerClaim c v =>
      match changeBlocksPerClaim s c v with
      | .ok s' => s'
      | .error _ => s

/-- Sequential execution of a list of operations (the environment totally
orders all calls). -/
def run (s : State) (ops : List Op) : State := ops.foldl applyOp s

/-! ### Arithmetic helper lemmas -/

theorem M_pos : 0 < M := by unfold M; positivity

theorem uadd_lt (a b : Nat) : uadd a b < M := Nat.mod_lt _ M_pos

theorem usub_lt (a b : Nat) : usub a b < M := Nat.mod_lt _ M_pos

/-- Wrapping subtraction agrees with exact subtraction when no underflow
occurs. -/
theorem usub_of_le {a b : Nat} (hba : b ≤ a) (ha : a < M) : usub a b = a - b := by
  unfold usub
  rw [Nat.mod_eq_of_lt ha, Nat.mod_eq_of_lt (lt_of_le_of_lt hba ha)]
  have h1 : M + a - b = M + (a - b) := by omega
  rw [h1, Nat.add_mod_left, Nat.mod_eq_of_lt (by omega)]

/-- Wrapping subtraction underflows to `M + a - b` when `a < b`. -/
theorem usub_of_lt {a b : Nat} (hab : a < b) (hb : b < M) : usub a b = M + a - b := by
  unfold usub
  rw [Nat.mod_eq_of_lt (lt_trans hab hb), Nat.mod_eq_of_lt hb]
  exact Nat.mod_eq_of_lt (by omega)

/-- Wrapping addition agrees with exact addition when no overflow occurs. -/
theorem uadd_of_lt {a b : Nat} (h : a + b < M) : uadd a b = a + b :=
  Nat.mod_eq_of_lt h

theorem natCast_uadd (a b : Nat) : ((uadd a b : Nat) : ZMod M) = (a : ZMod M) + b := by
  unfold uadd
  rw [ZMod.natCast_mod]
  push_cast
  ring

theorem natCast_usub (a b : Nat) : ((usub a b : Nat) : ZMod M) = (a : ZMod M) - b := by
  unfold usub
  rw [ZMod.natCast_mod]
  rw [Nat.cast_sub (le_trans (le_of_lt (Nat.mod_lt _ M_pos)) (Nat.le_add_right _ _))]
  push_cast [ZMod.natCast_self, ZMod.natCast_mod]
  ring

/-! ### Balance-sum helper lemmas -/

/-- Two functions that agree outside two distinguished points of `S` and
whose values at those points have the same (group-valued) sum have the same
sum over `S`. -/
theorem sum_congr_two_points (F G : Addr → ZMod M) (S : Finset Addr) (c t : Addr)
    (hc : c ∈ S) (ht : t ∈ S)
    (hout : ∀ a, a ≠ c → a ≠ t → G a = F a)
    (hsum : G c + G t = F c + F t)
    (heq : c = t → G c = F c) :
    ∑ a in S, G a = ∑ a in S, F a := by
  by_cases hct : c = t
  · refine Finset.sum_congr rfl ?_
    intro a _
    by_cases hac : a = c
    · rw [hac]; exact heq hct
    · exact hout a hac (by rw [← hct]; exact hac)
  · have hsub : ∑ a in S, (G a - F a) = 0 := by
      have hsubset : ({c, t} : Finset Addr) ⊆ S := by
        intro a ha
        rcases Finset.mem_insert.mp ha with h | h
        · rw [h]; exact hc
        · rw [Finset.mem_singleton.mp h]; exact ht
      rw [← Finset.sum_subset hsubset (by
        intro a _ hnot
        have hac : a ≠ c := fun h => hnot (by rw [h]; exact Finset.mem_insert_self _ _)
        have hat : a ≠ t := fun h => hnot (by
          rw [h]; exact Finset.mem_insert_of_mem (Finset.mem_singleton_self _))
        rw [hout a hac hat, sub_self])]
      rw [Finset.sum_pair hct]
      have : G c + G t - (F c + F t) = 0 := by rw [hsum, sub_self]
      linear_combination this
    rw [Finset.sum_sub_distrib] at hsub
    exact sub_eq_zero.mp hsub

/-- The double balance update performed by `claim` (credit `v` at `c`, then
debit `v` at `t`, wrapping) preserves the balance sum modulo `M`. -/
theorem sum_update_claim (bal : Addr → Nat) (S : Finset Addr) (c t : Addr)
    (hc : c ∈ S) (ht : t ∈ S) (v : Nat) :
    (∑ a in S, ((Function.update (Function.update bal c (uadd (bal c) v)) t
        (usub (Function.update bal c (uadd (bal c) v) t) v) a : Nat) : ZMod M))
      = ∑ a in S, ((bal a : Nat) : ZMod M) := by
  apply sum_congr_two_points _ _ S c t hc ht
  · intro a hac hat
    rw [Function.update_noteq hat, Function.update_noteq hac]
  · by_cases hct : c = t
    · subst hct
      simp only [Function.update_same, natCast_usub, natCast_uadd]
      ring
    · simp only [Function.update_same, Function.update_noteq hct,
        Function.update_noteq (Ne.symm hct), natCast_usub, natCast_uadd]
      ring
  · intro hct
    subst hct
    simp only [Function.update_same, natCast_usub, natCast_uadd]
    ring

/-- The double balance update performed by `sendMessage` (debit `v` at `c`,
then credit `v` at `t`, wrapping) preserves the balance sum modulo `M`. -/
theorem sum_update_send (bal : Addr → Nat) (S : Finset Addr) (c t : Addr)
    (hc : c ∈ S) (ht : t ∈ S) (v : Nat) :
    (∑ a in S, ((Function.update (Function.update bal c (usub (bal c) v)) t
        (uadd (Function.update bal c (usub (bal c) v) t) v) a : Nat) : ZMod M))
      = ∑ a in S, ((bal a : Nat) : ZMod M) := by
  apply sum_congr_two_points _ _ S c t hc ht
  · intro a hac hat
    rw [Function.update_noteq hat, Function.update_noteq hac]
  · by_cases hct : c = t
    · subst hct
      simp only [Function.update_same, natCast_usub, natCast_uadd]
      ring
    · simp only [Function.update_same, Function.update_noteq hct,
        Function.update_noteq (Ne.symm hct), natCast_usub, natCast_uadd]
      ring
  · intro hct
    subst hct
    simp only [Function.update_same, natCast_usub, natCast_uadd]
    ring

/-- Every non-creation operation preserves the balance sum modulo `M`, the
total supply, and the contract address. -/
theorem applyOp_balances_sum (s : State) (op : Op) (S : Finset Addr)
    (hthis : s.thisAddr ∈ S) (hcaller : op.caller ∈ S)
    (hnc : op.isCreate = false) :
    ((∑ a in S, (((applyOp s op).balances a : Nat) : ZMod M))
        = ∑ a in S, ((s.balances a : Nat) : ZMod M))
    ∧ (applyOp s op).totalSupply = s.totalSupply
    ∧ (applyOp s op).thisAddr = s.thisAddr := by
  cases op with
  | usableToken c i n d sy => simp [Op.isCreate] at hnc
  | claim c h =>
      simp only [applyOp, claim]
      by_cases hg : usub (usub h (s.lastClaimed c)) 1 < s.blocksPerClaim
      · rw [if_pos hg]
        exact ⟨rfl, rfl, rfl⟩
      · rw [if_neg hg]
        exact ⟨sum_update_claim s.balances S c s.thisAddr hcaller hthis _, rfl, rfl⟩
  | sendMessage c h m =>
      simp only [applyOp, sendMessage]
      by_cases hb : s.balances c ≥ s.tokensPerMessage
      · rw [if_pos hb]
        exact ⟨sum_update_send s.balances S c s.thisAddr hcaller hthis _, rfl, rfl⟩
      · rw [if_neg hb]
        exact ⟨rfl, rfl, rfl⟩
  | sendHash c ha =>
      exact ⟨rfl, rfl, rfl⟩
  | changeBlocksPerClaim c v =>
      simp only [applyOp, changeBlocksPerClaim]
      by_cases ho : c = s.owner
      · rw [if_pos ho]
        exact ⟨rfl, rfl, rfl⟩
      · rw [if_neg ho]
        exact ⟨rfl, rfl, rfl⟩

/-- Any sequence of non-creation operations preserves the balance sum modulo
`M`, the total supply, and the contract address. -/
theorem run_balances_sum (ops : List Op) (s : State) (S : Finset Addr)
    (hthis : s.thisAddr ∈ S) (hcallers : ∀ op ∈ ops, op.caller ∈ S)
    (hnc : ∀ op ∈ ops, op.isCreate = false) :
    ((∑ a in S, (((run s ops).balances a : Nat) : ZMod M))
        = ∑ a in S, ((s.balances a : Nat) : ZMod M))
    ∧ (run s ops).totalSupply = s.totalSupply
    ∧ (run s ops).thisAddr = s.thisAddr := by
  induction ops generalizing s with
  | nil => exact ⟨rfl, rfl, rfl⟩
  | cons op rest ih =>
      have hstep := applyOp_balances_sum s op S hthis
        (hcallers op (List.mem_cons_self _ _)) (hnc op (List.mem_cons_self _ _))
      have hrun : run s (op :: rest) = run (applyOp s op) rest := rfl
      have ihs := ih (applyOp s op) (by rw [hstep.2.2]; exact hthis)
        (fun o ho => hcallers o (List.mem_cons_of_mem _ ho))
        (fun o ho => hnc o (List.mem_cons_of_mem _ ho))
      refine ⟨?_, ?_, ?_⟩
      · rw [hrun, ihs.1, hstep.1]
      · rw [hrun, ihs.2.1, hstep.2.1]
      · rw [hrun, ihs.2.2, hstep.2.2]

/-- The balance sum right after the creation call equals the initial amount
(the whole supply sits in the contract's reserve). -/
theorem sum_after_create (S : Finset Addr) (thisAddr creator : Addr) (init : Nat)
    (nm : String) (dec : Nat) (sym : String) (hthis : thisAddr ∈ S) :
    (∑ a in S,
        (((UsableToken (deployed thisAddr) creator init nm dec sym).balances a : Nat) : ZMod M))
      = (init : ZMod M) := by
  rw [Finset.sum_eq_sum_diff_singleton_add hthis]
  have hzero : ∀ a ∈ S \ {thisAddr},
      (((UsableToken (deployed thisAddr) creator init nm dec sym).balances a : Nat) : ZMod M)
        = 0 := by
    intro a ha
    have hane : a ≠ thisAddr := by
      intro hcontra
      exact (Finset.mem_sdiff.mp ha).2 (Finset.mem_singleton.mpr hcontra)
    show ((Function.update (fun _ => 0) thisAddr (init % M) a : Nat) : ZMod M) = 0
    rw [Function.update_noteq hane]
    exact Nat.cast_zero
  rw [Finset.sum_eq_zero hzero, zero_add]
  show ((Function.update (fun _ => 0) thisAddr (init % M) thisAddr : Nat) : ZMod M)
    = (init : ZMod M)
  rw [Function.update_same]
  exact ZMod.natCast_mod init M

/-! ### Branch shape lemmas for the state-changing operations -/

/-- Shape of a failed (cooldown-gated) `claim`: boolean `false`, storage
untouched. -/
theorem claim_fail_eq (s : State) (h : Nat) (caller : Addr)
    (hlt : usub (usub h (s.lastClaimed caller)) 1 < s.blocksPerClaim) :
    claim s h caller = (false, s) := by
  unfold claim
  rw [if_pos hlt]

/-- Shape of a successful `claim`: boolean `true`, `lastClaimed` stamped with
`blockNumber - 1`, caller credited then reserve debited by the grant value,
both wrapping. -/
theorem claim_success_eq (s : State) (h : Nat) (caller : Addr)
    (hle : s.blocksPerClaim ≤ usub (usub h (s.lastClaimed caller)) 1) :
    claim s h caller =
      (true,
        { s with
          lastClaimed := Function.update s.lastClaimed caller (usub h 1)
          balances :=
            Function.update
              (Function.update s.balances caller
                (uadd (s.balances caller) (getClaimableTokens s h caller)))
              s.thisAddr
              (usub
                (Function.update s.balances caller
                  (uadd (s.balances caller) (getClaimableTokens s h caller))
                  s.thisAddr)
                (getClaimableTokens s h caller)) }) := by
  unfold claim
  rw [if_neg (not_lt.mpr hle)]

/-- Shape of a successful `sendMessage`. -/
theorem sendMessage_ok_eq (s : State) (h : Nat) (caller : Addr) (msg : String)
    (hb : s.balances caller ≥ s.tokensPerMessage) :
    sendMessage s h caller msg =
      Except.ok
        { s with
          messageHistory := Function.update s.messageHistory caller
            (s.messageHistory caller ++ [usub h 1])
          balances :=
            Function.update
              (Function.update s.balances caller
                (usub (s.balances caller) s.tokensPerMessage))
              s.thisAddr
              (uadd
                (Function.update s.balances caller
                  (usub (s.balances caller) s.tokensPerMessage) s.thisAddr)
                s.tokensPerMessage)
          latestMessage := msg } := by
  unfold sendMessage
  rw [if_pos hb]

/-- Shape of a reverted `sendMessage`. -/
theorem sendMessage_err_eq (s : State) (h : Nat) (caller : Addr) (msg : String)
    (hb : s.balances caller < s.tokensPerMessage) :
    sendMessage s h caller msg = Except.error Err.InsufficientFunds := by
  unfold sendMessage
  rw [if_neg (not_le.mpr hb)]

/-! ### Concrete states used by counterexamples and witnesses -/

/-- Creation with a 1000-token reserve: contract address 0, creator is
account 1, defaults `dailyTokens = 12`, `tokensPerMessage = 3`,
`blocksPerClaim = 100`. -/
def exState : State := UsableToken (deployed 0) 1 1000 "tok" 0 "TOK"

/-- Creation with only a 5-token reserve, smaller than a single
`dailyTokens` grant. -/
def lowState : State := UsableToken (deployed 0) 1 5 "tok" 0 "TOK"

/-- State `exState` after account 2's first successful claim, at height 101. -/
def postClaim : State := (claim exState 101 2).2

/-! ### Claim theorems -/

/-- C1 (counterexample): the exact (non-modular) fixed-supply invariant
fails on a reachable state.  After creation with a 5-token reserve, account
2's first claim at height 0 succeeds, granting 12 tokens while the reserve
wraps to `2 ^ 256 - 7`; account 2's balance alone then exceeds
`totalSupply = 5`, so no sum of unsigned balances can equal `totalSupply`
again. -/
theorem C1_counterexample :
    (run lowState [Op.claim 2 0]).balances 2 = 12 ∧
    (run lowState [Op.claim 2 0]).balances 0 = M - 7 ∧
    (run lowState [Op.claim 2 0]).totalSupply = 5 ∧
    (run lowState [Op.claim 2 0]).balances 2 > (run lowState [Op.claim 2 0]).totalSupply :=
  ⟨rfl, rfl, rfl, by decide⟩

/-- C1 (amended): for every state reached from creation by non-creation
operations, the sum of all account balances (over any finite set of accounts
covering the reserve account and every operation's caller; all other
accounts hold zero) is congruent to `totalSupply` modulo `2 ^ 256`, and
`totalSupply` itself is constant, equal to the created amount.  The exact
(non-modular) equality is what fails (see the counterexample). -/
theorem C1_supply_invariant_mod (thisAddr creator : Addr) (init : Nat)
    (nm : String) (dec : Nat) (sym : String) (ops : List Op) (S : Finset Addr)
    (hthis : thisAddr ∈ S)
    (hcallers : ∀ op ∈ ops, op.caller ∈ S)
    (hnc : ∀ op ∈ ops, op.isCreate = false) :
    ((∑ a in S,
        (run (UsableToken (deployed thisAddr) creator init nm dec sym) ops).balances a) % M
      = (run (UsableToken (deployed thisAddr) creator init nm dec sym) ops).totalSupply % M)
    ∧ (run (UsableToken (deployed thisAddr) creator init nm dec sym) ops).totalSupply
        = init % M := by
  have hrun := run_balances_sum ops
    (UsableToken (deployed thisAddr) creator init nm dec sym) S hthis hcallers hnc
  have hts : (run (UsableToken (deployed thisAddr) creator init nm dec sym) ops).totalSupply
      = init % M := hrun.2.1
  refine ⟨?_, hts⟩
  rw [← ZMod.natCast_eq_natCast_iff']
  push_cast
  rw [hrun.1, sum_after_create S thisAddr creator init nm dec sym hthis, hts,
    ZMod.natCast_mod]

/-- C1 (witness): instantiation of the modular invariant on a concrete
trace. -/
theorem C1_witness :
    (0 : Addr) ∈ ({0, 1, 2} : Finset Addr) ∧
    (((∑ a in ({0, 1, 2} : Finset Addr),
        (run (UsableToken (deployed 0) 1 1000 "tok" 0 "TOK") [Op.claim 2 101]).balances a) % M
      = (run (UsableToken (deployed 0) 1 1000 "tok" 0 "TOK") [Op.claim 2 101]).totalSupply % M)
    ∧ (run (UsableToken (deployed 0) 1 1000 "tok" 0 "TOK") [Op.claim 2 101]).totalSupply
        = 1000 % M) :=
  ⟨by decide,
    C1_supply_invariant_mod 0 1 1000 "tok" 0 "TOK" [Op.claim 2 101] {0, 1, 2}
      (by decide) (by decide) (by decide)⟩

/-- C2 (counterexample): a fresh account (`lastClaimed = 0`) cannot claim at
height 1 under the default `blocksPerClaim = 100`: the first-ever `claim`
does NOT succeed regardless of the current height. -/
theorem C2_counterexample :
    exState.lastClaimed 2 = 0 ∧ (claim exState 1 2).1 = false ∧
    (claim exState 1 2).2.balances 2 = 0 :=
  ⟨rfl, rfl, rfl⟩

/-- C2 (amended): for a fresh account the first-ever `claim` succeeds
exactly when the wrapped quantity `blockNumber - 0 - 1` is at least
`blocksPerClaim` (so at height 0, where the uint subtraction wraps, or at
heights above `blocksPerClaim`, but not at heights `1 .. blocksPerClaim`);
when it succeeds the computed grant is exactly `dailyTokens` and the
caller's balance grows by exactly `dailyTokens` (wrapping; exact when no
overflow). -/
theorem C2_first_claim (s : State) (h : Nat) (caller : Addr)
    (hfresh : s.lastClaimed caller = 0) :
    ((claim s h caller).1 = true ↔ s.blocksPerClaim ≤ usub (usub h 0) 1) ∧
    getClaimableTokens s h caller = s.dailyTokens ∧
    (s.blocksPerClaim ≤ usub (usub h 0) 1 → caller ≠ s.thisAddr →
      (claim s h caller).2.balances caller
        = uadd (s.balances caller) s.dailyTokens) ∧
    (s.blocksPerClaim ≤ usub (usub h 0) 1 → caller ≠ s.thisAddr →
      s.balances caller + s.dailyTokens < M →
      (claim s h caller).2.balances caller
        = s.balances caller + s.dailyTokens) := by
  have hval : getClaimableTokens s h caller = s.dailyTokens := by
    unfold getClaimableTokens
    rw [hfresh, if_pos rfl]
  have hguard : usub (usub h (s.lastClaimed caller)) 1 = usub (usub h 0) 1 := by
    rw [hfresh]
  refine ⟨?_, hval, ?_, ?_⟩
  · by_cases hlt : usub (usub h 0) 1 < s.blocksPerClaim
    · rw [claim_fail_eq s h caller (by rw [hguard]; exact hlt)]
      exact iff_of_false (by simp) (not_le.mpr hlt)
    · rw [claim_success_eq s h caller (by rw [hguard]; exact not_lt.mp hlt)]
      exact iff_of_true rfl (not_lt.mp hlt)
  · intro hle hne
    rw [claim_success_eq s h caller (by rw [hguard]; exact hle)]
    simp only [Function.update_noteq hne, Function.update_same, hval]
  · intro hle hne hov
    rw [claim_success_eq s h caller (by rw [hguard]; exact hle)]
    simp only [Function.update_noteq hne, Function.update_same, hval]
    exact uadd_of_lt hov

/-- C2 (witness): account 2 is fresh in `exState`; at height 101 its first
claim grants exactly the 12 `dailyTokens`. -/
theorem C2_witness :
    (claim exState 101 2).2.balances 2 = exState.balances 2 + exState.dailyTokens :=
  (C2_first_claim exState 101 2 rfl).2.2.2 (by decide) (by decide) (by decide)

/-- C3 (counterexample): with a 5-token reserve and a computed grant of 12,
`claim` at height 0 does not fail with `InsufficientReserve`: it returns
`true` and debits the reserve below zero, wrapping it to `2 ^ 256 - 7`. -/
theorem C3_counterexample :
    lowState.balances 0 = 5 ∧ getClaimableTokens lowState 0 2 = 12 ∧
    (claim lowState 0 2).1 = true ∧ (claim lowState 0 2).2.balances 0 = M - 7 :=
  ⟨rfl, rfl, rfl, rfl⟩

/-- C3 (amended): when the computed grant exceeds the reserve, an eligible
`claim` still succeeds — there is no `InsufficientReserve` check anywhere in
`claim` — and the reserve is debited with uint256 wraparound, becoming
`2 ^ 256 + reserve - value`. -/
theorem C3_reserve_underflow (s : State) (h : Nat) (caller : Addr)
    (hne : caller ≠ s.thisAddr)
    (helig : s.blocksPerClaim ≤ usub (usub h (s.lastClaimed caller)) 1)
    (hover : s.balances s.thisAddr < getClaimableTokens s h caller)
    (hvM : getClaimableTokens s h caller < M) :
    (claim s h caller).1 = true ∧
    (claim s h caller).2.balances s.thisAddr
      = M + s.balances s.thisAddr - getClaimableTokens s h caller := by
  rw [claim_success_eq s h caller helig]
  refine ⟨rfl, ?_⟩
  simp only [Function.update_same, Function.update_noteq (Ne.symm hne)]
  exact usub_of_lt hover hvM

/-- C3 (witness): instantiation on the concrete 5-token-reserve state. -/
theorem C3_witness :
    (claim lowState 0 2).1 = true ∧
    (claim lowState 0 2).2.balances lowState.thisAddr
      = M + lowState.balances lowState.thisAddr - getClaimableTokens lowState 0 2 :=
  C3_reserve_underflow lowState 0 2 (by decide) (by decide) (by decide) (by decide)

/-- C4 (code evaluation at the failing input): `UsableToken` is an ordinary
public function (in Solidity 0.4.8 a constructor must bear the contract's
name, `MessageToken`), so after creation by account 1 a second call by
account 2 replaces the owner — and the total supply — at will.  The claim
that no post-creation operation can change the owner is contradicted by the
code. -/
theorem C4_owner_not_immutable :
    exState.owner = 1 ∧
    (UsableToken exState 2 7 "x" 0 "X").owner = 2 ∧
    (UsableToken exState 2 7 "x" 0 "X").totalSupply = 7 :=
  ⟨rfl, rfl, rfl⟩

theorem one_lt_M : 1 < M := by
  unfold M
  norm_num

/-- The cooldown guard quantity equals the exact height difference when no
wrap occurs. -/
theorem usub_usub_one (lc h : Nat) (hlt : lc < h) (hM : h < M) :
    usub (usub h lc) 1 = h - lc - 1 := by
  rw [@usub_of_le h lc (le_of_lt hlt) hM]
  rw [@usub_of_le (h - lc) 1 (by omega) (by omega)]

/-- The cooldown guard quantity after a claim at height 0 (which stamped
`lastClaimed = 2 ^ 256 - 1`) evaluates, at a later height `h2`, to `h2`. -/
theorem usub_usub_one_wrap (h2 : Nat) (hM : h2 + 1 < M) :
    usub (usub h2 (usub 0 1)) 1 = h2 := by
  have h1M : 1 < M := one_lt_M
  rw [@usub_of_lt 0 1 (by omega) h1M]
  rw [@usub_of_lt h2 (M + 0 - 1) (by omega) (by omega)]
  rw [@usub_of_le (M + h2 - (M + 0 - 1)) 1 (by omega) (by omega)]
  omega

/-- C5: a `claim` inside the cooldown window returns `false` with the whole
storage unchanged; in particular a second `claim` fewer than
`blocksPerClaim` heights after a successful one returns `false` and changes
nothing. -/
theorem C5_cooldown_no_change (s : State) (h h2 : Nat) (caller : Addr) :
    (s.lastClaimed caller < h → h < M →
      h - s.lastClaimed caller - 1 < s.blocksPerClaim →
      claim s h caller = (false, s)) ∧
    ((claim s h caller).1 = true → h ≤ h2 → h2 + 1 < M →
      h2 - h < s.blocksPerClaim →
      claim (claim s h caller).2 h2 caller = (false, (claim s h caller).2)) := by
  constructor
  · intro hlt hM hcool
    exact claim_fail_eq s h caller
      (by rw [usub_usub_one (s.lastClaimed caller) h hlt hM]; exact hcool)
  · intro hsucc hle12 hM2 hcool
    have hle : s.blocksPerClaim ≤ usub (usub h (s.lastClaimed caller)) 1 := by
      by_contra hcon
      rw [claim_fail_eq s h caller (not_le.mp hcon)] at hsucc
      simp at hsucc
    rw [claim_success_eq s h caller hle]
    apply claim_fail_eq
    simp only [Function.update_same]
    rcases Nat.eq_zero_or_pos h with rfl | hpos
    · rw [usub_usub_one_wrap h2 hM2]
      omega
    · rw [@usub_of_le h 1 hpos (by omega)]
      rw [usub_usub_one (h - 1) h2 (by omega) (by omega)]
      omega

/-- C5 (witness): at height 150, 49 heights after the successful claim at
101, a second claim by account 2 fails and leaves the state unchanged. -/
theorem C5_witness :
    claim postClaim 150 2 = (false, postClaim) ∧
    claim (claim exState 101 2).2 150 2 = (false, (claim exState 101 2).2) :=
  ⟨(C5_cooldown_no_change postClaim 150 0 2).1 (by decide) (by decide) (by decide),
   (C5_cooldown_no_change exState 101 150 2).2 rfl (by decide) (by decide) (by decide)⟩

/-- C6: `sendMessage` with a balance below `tokensPerMessage` reverts with
`InsufficientFunds` (all effects discarded); otherwise it appends
`blockNumber - 1` to the caller's history, moves exactly `tokensPerMessage`
from the caller to the reserve, overwrites `latestMessage`, and touches
nothing else. -/
theorem C6_sendMessage_spec (s : State) (h : Nat) (caller : Addr) (msg : String) :
    (s.balances caller < s.tokensPerMessage →
      sendMessage s h caller msg = Except.error Err.InsufficientFunds) ∧
    (s.tokensPerMessage ≤ s.balances caller → caller ≠ s.thisAddr →
      1 ≤ h → h < M → s.balances caller < M →
      s.balances s.thisAddr + s.tokensPerMessage < M →
      ((sendMessage s h caller msg).map (fun s2 => s2.messageHistory caller)
          = Except.ok (s.messageHistory caller ++ [h - 1])) ∧
      ((sendMessage s h caller msg).map (fun s2 => s2.balances caller)
          = Except.ok (s.balances caller - s.tokensPerMessage)) ∧
      ((sendMessage s h caller msg).map (fun s2 => s2.balances s.thisAddr)
          = Except.ok (s.balances s.thisAddr + s.tokensPerMessage)) ∧
      ((sendMessage s h caller msg).map State.latestMessage = Except.ok msg) ∧
      (∀ a, a ≠ caller → a ≠ s.thisAddr →
        (sendMessage s h caller msg).map (fun s2 => s2.balances a)
          = Except.ok (s.balances a)) ∧
      (∀ a, a ≠ caller →
        (sendMessage s h caller msg).map (fun s2 => s2.messageHistory a)
          = Except.ok (s.messageHistory a)) ∧
      ((sendMessage s h caller msg).map State.lastClaimed
          = Except.ok s.lastClaimed) ∧
      ((sendMessage s h caller msg).map State.blocksPerClaim
          = Except.ok s.blocksPerClaim) ∧
      ((sendMessage s h caller msg).map State.totalSupply
          = Except.ok s.totalSupply) ∧
      ((sendMessage s h caller msg).map State.ipfsHash
          = Except.ok s.ipfsHash)) := by
  constructor
  · intro hlt
    exact sendMessage_err_eq s h caller msg hlt
  · intro hb hne h1 hM hbM hres
    rw [sendMessage_ok_eq s h caller msg hb]
    simp only [Except.map]
    refine ⟨?_, ?_, ?_, trivial, ?_, ?_, trivial, trivial, trivial, trivial⟩
    · simp only [Function.update_same]
      rw [@usub_of_le h 1 h1 hM]
    · simp only [Function.update_noteq hne, Function.update_same]
      rw [@usub_of_le (s.balances caller) s.tokensPerMessage hb hbM]
    · simp only [Function.update_same, Function.update_noteq (Ne.symm hne)]
      rw [uadd_of_lt hres]
    · intro a hac hat
      simp only [Function.update_noteq hat, Function.update_noteq hac]
    · intro a hac
      simp only [Function.update_noteq hac]

/-- C6 (witness): account 2, holding 12 tokens after its claim, sends a
message at height 102; and a zero-balance account's send reverts. -/
theorem C6_witness :
    ((sendMessage postClaim 102 2 "gm").map (fun s2 => s2.messageHistory 2)
        = Except.ok (postClaim.messageHistory 2 ++ [102 - 1])) ∧
    ((sendMessage postClaim 102 2 "gm").map (fun s2 => s2.balances 2)
        = Except.ok (postClaim.balances 2 - postClaim.tokensPerMessage)) ∧
    ((sendMessage postClaim 102 2 "gm").map (fun s2 => s2.balances postClaim.thisAddr)
        = Except.ok (postClaim.balances postClaim.thisAddr + postClaim.tokensPerMessage)) ∧
    sendMessage lowState 102 7 "x" = Except.error Err.InsufficientFunds := by
  have hmain := (C6_sendMessage_spec postClaim 102 2 "gm").2 (by decide) (by decide)
    (by decide) (by decide) (by decide) (by decide)
  exact ⟨hmain.1, hmain.2.1, hmain.2.2.1,
    (C6_sendMessage_spec lowState 102 7 "x").1 (by decide)⟩

/-- Closed form of `getBlocksTillClaimable` for an account that has claimed,
at a height past its last claim: truncated subtraction realises the spec's
`max(0, blocksPerClaim - (currentHeight - lastClaimedHeight - 1))`. -/
theorem getBlocksTillClaimable_eq (s : State) (h : Nat) (acct : Addr)
    (hne : s.lastClaimed acct ≠ 0) (hlt : s.lastClaimed acct < h) (hM : h < M) :
    getBlocksTillClaimable s h acct
      = s.blocksPerClaim - (h - s.lastClaimed acct - 1) := by
  simp only [getBlocksTillClaimable, safeSub]
  rw [if_neg hne]
  rw [usub_usub_one (s.lastClaimed acct) h hlt hM]
  by_cases hbd : h - s.lastClaimed acct - 1 < s.blocksPerClaim
  · rw [if_pos hbd]
  · rw [if_neg hbd]
    omega

/-- C7: `getBlocksTillClaimable` returns 0 for a never-claimed account;
for a claimed account at heights past the claim it equals
`max(0, blocksPerClaim - (h - lastClaimed - 1))`, is monotonically
non-increasing in the height, and reaches 0 exactly at
`lastClaimed + blocksPerClaim + 1`. -/
theorem C7_blocksTillClaimable_spec (s : State) (acct : Addr) :
    (∀ h, s.lastClaimed acct = 0 → getBlocksTillClaimable s h acct = 0) ∧
    (∀ h, s.lastClaimed acct ≠ 0 → s.lastClaimed acct < h → h < M →
      (getBlocksTillClaimable s h acct : Int)
        = max 0 ((s.blocksPerClaim : Int)
            - ((h : Int) - (s.lastClaimed acct : Int) - 1))) ∧
    (∀ h h2, s.lastClaimed acct ≠ 0 → s.lastClaimed acct < h → h ≤ h2 → h2 < M →
      getBlocksTillClaimable s h2 acct ≤ getBlocksTillClaimable s h acct) ∧
    (s.lastClaimed acct ≠ 0 → s.lastClaimed acct + s.blocksPerClaim + 1 < M →
      (getBlocksTillClaimable s (s.lastClaimed acct + s.blocksPerClaim + 1) acct = 0 ∧
        ∀ h, s.lastClaimed acct < h → h < s.lastClaimed acct + s.blocksPerClaim + 1 →
          0 < getBlocksTillClaimable s h acct)) := by
  refine ⟨?_, ?_, ?_, ?_⟩
  · intro h h0
    simp only [getBlocksTillClaimable]
    rw [if_pos h0]
  · intro h hne hlt hM
    rw [getBlocksTillClaimable_eq s h acct hne hlt hM]
    rcases le_or_lt (s.blocksPerClaim : Int)
        ((h : Int) - (s.lastClaimed acct : Int) - 1) with hc | hc
    · rw [max_eq_left (by omega)]
      omega
    · rw [max_eq_right (by omega)]
      omega
  · intro h h2 hne hlt hle hM
    rw [getBlocksTillClaimable_eq s h acct hne hlt (by omega),
      getBlocksTillClaimable_eq s h2 acct hne (by omega) hM]
    omega
  · intro hne hM
    constructor
    · rw [getBlocksTillClaimable_eq s _ acct hne (by omega) hM]
      omega
    · intro h hlt hup
      rw [getBlocksTillClaimable_eq s h acct hne hlt (by omega)]
      omega

/-- C7 (witness): in `postClaim` (`lastClaimed 2 = 100`,
`blocksPerClaim = 100`) the countdown matches the max-formula at height 150
and hits 0 exactly at height 201; a fresh account reads 0. -/
theorem C7_witness :
    getBlocksTillClaimable exState 7 2 = 0 ∧
    ((getBlocksTillClaimable postClaim 150 2 : Int)
      = max 0 ((postClaim.blocksPerClaim : Int)
          - ((150 : Int) - (postClaim.lastClaimed 2 : Int) - 1))) ∧
    getBlocksTillClaimable postClaim
      (postClaim.lastClaimed 2 + postClaim.blocksPerClaim + 1) 2 = 0 := by
  have hmain := C7_blocksTillClaimable_spec postClaim 2
  exact ⟨(C7_blocksTillClaimable_spec exState 2).1 7 rfl,
    hmain.2.1 150 (by decide) (by decide) (by decide),
    (hmain.2.2.2 (by decide) (by decide)).1⟩

/-- State `exState` with the claim cooldown set to zero. -/
def zeroBpcState : State := { exState with blocksPerClaim := 0 }

/-- C8: a non-owner calling `changeBlocksPerClaim` always reverts with
`Unauthorized` (leaving `blocksPerClaim` unchanged); the owner replaces it
unconditionally, 0 included; and in any state with `blocksPerClaim = 0`,
`getBlocksTillClaimable` returns 0 unconditionally and every `claim` by any
account at any height succeeds. -/
theorem C8_changeBlocksPerClaim_spec (s : State) (caller : Addr) (v : Nat) :
    (caller ≠ s.owner →
      changeBlocksPerClaim s caller v = Except.error Err.Unauthorized) ∧
    changeBlocksPerClaim s s.owner v
      = Except.ok { s with blocksPerClaim := v % M } ∧
    (s.blocksPerClaim = 0 →
      (∀ h acct, getBlocksTillClaimable s h acct = 0) ∧
      ∀ h c2, (claim s h c2).1 = true) := by
  refine ⟨?_, ?_, ?_⟩
  · intro hne
    unfold changeBlocksPerClaim
    rw [if_neg hne]
  · unfold changeBlocksPerClaim
    rw [if_pos rfl]
  · intro h0
    constructor
    · intro h acct
      simp only [getBlocksTillClaimable]
      by_cases hlc : s.lastClaimed acct = 0
      · rw [if_pos hlc]
      · rw [if_neg hlc, h0]
        simp
    · intro h c2
      rw [claim_success_eq s h c2 (by rw [h0]; exact Nat.zero_le _)]

/-- C8 (witness): account 2 (non-owner) is refused; the owner (account 1)
sets the cooldown to 0; with the cooldown 0 the countdown reads 0 and claims
succeed back-to-back at the same height. -/
theorem C8_witness :
    changeBlocksPerClaim exState 2 0 = Except.error Err.Unauthorized ∧
    changeBlocksPerClaim exState exState.owner 0
      = Except.ok { exState with blocksPerClaim := 0 % M } ∧
    getBlocksTillClaimable zeroBpcState 500 2 = 0 ∧
    (claim zeroBpcState 5 2).1 = true ∧
    (claim (claim zeroBpcState 5 2).2 5 2).1 = true :=
  ⟨(C8_changeBlocksPerClaim_spec exState 2 0).1 (by decide),
   (C8_changeBlocksPerClaim_spec exState exState.owner 0).2.1,
   ((C8_changeBlocksPerClaim_spec zeroBpcState 1 0).2.2 rfl).1 500 2,
   ((C8_changeBlocksPerClaim_spec zeroBpcState 1 0).2.2 rfl).2 5 2,
   ((C8_changeBlocksPerClaim_spec (claim zeroBpcState 5 2).2 1 0).2.2 (by decide)).2 5 2⟩

/-- C9: `sendHash`, for every caller and pointer, succeeds with no fee and
no authorization check, overwrites only the `ipfsHash` field (the one
`getHash` returns), and leaves balances, claim heights, histories, the
latest message pointer and every configuration parameter unchanged. -/
theorem C9_sendHash_spec (s : State) (p : String) :
    (∀ c, applyOp s (Op.sendHash c p) = { s with ipfsHash := p }) ∧
    sendHash s p = { s with ipfsHash := p } ∧
    getHash (sendHash s p) = p ∧
    (sendHash s p).balances = s.balances ∧
    (sendHash s p).lastClaimed = s.lastClaimed ∧
    (sendHash s p).messageHistory = s.messageHistory ∧
    (sendHash s p).latestMessage = s.latestMessage ∧
    (sendHash s p).blocksPerClaim = s.blocksPerClaim ∧
    (sendHash s p).dailyTokens = s.dailyTokens ∧
    (sendHash s p).tokensPerMessage = s.tokensPerMessage ∧
    (sendHash s p).owner = s.owner ∧
    (sendHash s p).totalSupply = s.totalSupply :=
  ⟨fun _ => rfl, rfl, rfl, rfl, rfl, rfl, rfl, rfl, rfl, rfl, rfl, rfl⟩

/-- State `postClaim` after account 2 sends a message at height 102. -/
def postSend : State := (sendMessage postClaim 102 2 "gm").toOption.getD postClaim

/-- C10: a successful `claim` and a successful `sendMessage` each preserve
the sum of all account balances (the reserve's balance included) modulo
`2 ^ 256`, over any finite account set containing the caller and the
contract, even when an individual update wraps. -/
theorem C10_sum_preserved_mod (s : State) (h : Nat) (caller : Addr)
    (msg : String) (S : Finset Addr) (s2 : State)
    (hc : caller ∈ S) (ht : s.thisAddr ∈ S) :
    ((claim s h caller).1 = true →
      (∑ a in S, (claim s h caller).2.balances a) % M
        = (∑ a in S, s.balances a) % M) ∧
    (sendMessage s h caller msg = Except.ok s2 →
      (∑ a in S, s2.balances a) % M = (∑ a in S, s.balances a) % M) := by
  constructor
  · intro hsucc
    have hle : s.blocksPerClaim ≤ usub (usub h (s.lastClaimed caller)) 1 := by
      by_contra hcon
      rw [claim_fail_eq s h caller (not_le.mp hcon)] at hsucc
      simp at hsucc
    rw [claim_success_eq s h caller hle]
    rw [← ZMod.natCast_eq_natCast_iff']
    push_cast
    exact sum_update_claim s.balances S caller s.thisAddr hc ht _
  · intro hok
    by_cases hb : s.balances caller ≥ s.tokensPerMessage
    · rw [sendMessage_ok_eq s h caller msg hb] at hok
      injection hok with hok2
      rw [← hok2]
      rw [← ZMod.natCast_eq_natCast_iff']
      push_cast
      exact sum_update_send s.balances S caller s.thisAddr hc ht _
    · rw [sendMessage_err_eq s h caller msg (not_le.mp hb)] at hok
      simp at hok

/-- C10 (witness): concrete instantiations on the claim at height 101 and
the send at height 102. -/
theorem C10_witness :
    ((∑ a in ({0, 1, 2} : Finset Addr), (claim exState 101 2).2.balances a) % M
      = (∑ a in ({0, 1, 2} : Finset Addr), exState.balances a) % M) ∧
    ((∑ a in ({0, 1, 2} : Finset Addr), postSend.balances a) % M
      = (∑ a in ({0, 1, 2} : Finset Addr), postClaim.balances a) % M) :=
  ⟨(C10_sum_preserved_mod exState 101 2 "gm" {0, 1, 2} postSend
      (by decide) (by decide)).1 rfl,
   (C10_sum_preserved_mod postClaim 102 2 "gm" {0, 1, 2} postSend
      (by decide) (by decide)).2 rfl⟩

end MessageToken
